import Mathlib

set_option maxRecDepth 40000

/-!
Verification of the lock registry, chained hash map, request handlers and
startup argument handling of the multithreaded HTTP server
(src/unnamed/part_000, src/hash_table.c, src/hash_table.h).

The C code is shallowly embedded: pointers become `Option Nat` (lock
identities), fallible allocation becomes explicit oracle booleans, and the
effectful handler bodies become pure functions from an environment (the
results the OS would return: open/stat/copy outcomes) to a trace of the
externally visible events they perform (responses, audit records, lock
operations, descriptor closes, unlinks).  Mutex-serialized registry
operations are modelled as sequential calls, which is exactly the
interleaving the registry's structural mutex enforces.

Two small pieces of the repository are not under src/ and are modelled from
the spec where they are needed (see `hashFn` and the equality comparator
inlined in `hash_get`).
-/

/-- TABLE_SIZE from src/hash_table.h. -/
def TABLE_SIZE : Nat := 128

/-- The item key buffer is `char key[255]` (item.h); `snprintf(key, 255, ...)`
stores at most 254 characters, so keys are truncated to 254 characters. -/
def KEY_BOUND : Nat := 254

/-- One chain node's payload: `struct item` from item.h. The `id` field is a
`rwlock_t *`; `none` models a null pointer and `some n` the lock with
identity `n`. -/
structure Entry where
  key : String
  id : Option Nat
deriving DecidableEq, Repr

/-- Embedding of `struct Hashtable`: TABLE_SIZE bucket lists (src/hash_table.h). -/
abbrev Hashtable := List (List Entry)

/-- Key truncation performed by `snprintf(new_item.key, sizeof(new_item.key), "%s", key)`
in `hash_put` and `hash_get` (src/hash_table.c). -/
def trunc (s : String) : String := String.mk (s.data.take KEY_BOUND)

/-- Embedding of `hash_create` (src/hash_table.c): TABLE_SIZE empty buckets. -/
def hash_create : Hashtable := List.replicate TABLE_SIZE []

/-- Bucket selection `hash(key) % TABLE_SIZE` (src/hash_table.c).  Note that
the untruncated key is hashed, while the truncated key is stored and
compared. The development is parametric in the hash function `h`. -/
def bucketIdx (h : String → Nat) (k : String) : Nat := h k % TABLE_SIZE

/-- Modelled from the spec: the string hash itself (hash_fn.h / hash_fn.c) is
not under src/; the spec says only "computes a bucket index via a string hash
modulo bucket count".  Concrete statements instantiate the hash parameter
with this byte-sum string hash. -/
def hashFn (s : String) : Nat := s.data.foldl (fun a c => a + c.toNat) 0

/-- Embedding of `hash_get` (src/hash_table.c): truncate the search key, pick the bucket by
hashing the untruncated key, and scan the chain with `cmp`.  `cmp` (item.c is
not under src/) is modelled from the spec: "exact key-string equality", on the
stored (truncated) keys.  Returns the storage location of the value, i.e.
`some v` gives access to the stored `rwlock_t *` (itself an `Option Nat`). -/
def hash_get (h : String → Nat) (t : Hashtable) (k : String) : Option (Option Nat) :=
  ((t.getD (bucketIdx h k) []).find? (fun e => e.key == trunc k)).map Entry.id

/-- The in-place value overwrite `*existing_val = val` performed by `hash_put`
through the location returned by `hash_get`: update the first chain entry
whose stored key matches. -/
def updateFirst (b : List Entry) (tk : String) (v : Option Nat) : List Entry :=
  match b with
  | [] => []
  | e :: es => if e.key == tk then { e with id := v } :: es else e :: updateFirst es tk v

/-- Embedding of `hash_put` (src/hash_table.c): if `hash_get` finds the key, overwrite its
value in place; otherwise prepend a new item (truncated key) to the bucket of
`hash(key) % TABLE_SIZE` (`list_add` prepends at the list head). This is the
allocation-success path; allocation failure leaves the table unchanged and is
threaded explicitly where it matters (see `get_file_lock`). -/
def hash_put (h : String → Nat) (t : Hashtable) (k : String) (v : Option Nat) : Hashtable :=
  match (t.getD (bucketIdx h k) []).find? (fun e => e.key == trunc k) with
  | some _ =>
    t.set (bucketIdx h k) (updateFirst (t.getD (bucketIdx h k) []) (trunc k) v)
  | none =>
    t.set (bucketIdx h k) ({ key := trunc k, id := v } :: t.getD (bucketIdx h k) [])

/-- A sequence of `hash_put` calls. -/
def putAll (h : String → Nat) (t : Hashtable) (ps : List (String × Option Nat)) : Hashtable :=
  ps.foldl (fun t p => hash_put h t p.1 p.2) t

/-- Total number of live entries in the table. -/
def entryCount (t : Hashtable) : Nat := (t.map List.length).sum

/-- Stored keys, bucket by bucket. -/
def tableKeys (t : Hashtable) : List (List String) := t.map (fun b => b.map Entry.key)

/-- Number of live entries whose stored key is `k`. -/
def entriesWithKey (t : Hashtable) (k : String) : Nat :=
  (t.map (fun b => b.countP (fun e => e.key == k))).sum

/-! ## Lock registry (`get_file_lock`, src/unnamed/part_000, lines 48-72) -/

/-- Registry state: the hash table plus a fresh-lock allocator. Lock
identities are allocated as successive naturals, so two locks created by
distinct `rwlock_new` calls are distinct instances. -/
structure GState where
  table : Hashtable
  next : Nat
deriving DecidableEq

/-- Allocation outcomes the OS would provide during one `get_file_lock` call:
whether `rwlock_new` succeeds and whether `hash_put`'s node allocation
(`list_add`'s malloc) succeeds.  On a failed `list_add` the bucket list is
left untouched, hence the table is unchanged on that path. -/
structure Oracle where
  newLockOk : Bool
  putOk : Bool
deriving DecidableEq

/-- Initial registry state (`file_lock_ht = hash_create()`). -/
def initRegistry : GState := ⟨hash_create, 0⟩

/-- Embedding of `get_file_lock` (src/unnamed/part_000): under the registry mutex, look the
path up; if found return the stored lock pointer; otherwise create a new
lock, insert it, and return it; on `rwlock_new` or `hash_put` failure return
null (`none`) with the table unchanged (the failed new lock is deleted).
Sequential calls model the serialization enforced by `file_lock_ht_mutex`. -/
def get_file_lock (h : String → Nat) (s : GState) (path : String) (o : Oracle) :
    Option Nat × GState :=
  match hash_get h s.table path with
  | some stored => (stored, s)
  | none =>
    if o.newLockOk then
      if o.putOk then (some s.next, ⟨hash_put h s.table path (some s.next), s.next + 1⟩)
      else (none, s)
    else (none, s)

/-- Run a sequence of `get_file_lock` calls (arbitrary paths and allocation
outcomes), keeping only the final registry state. -/
def runCalls (h : String → Nat) (s : GState) (calls : List (String × Oracle)) : GState :=
  calls.foldl (fun s c => (get_file_lock h s c.1 c.2).2) s

/-! ## Teardown (`cleanup_file_locks`, `list_destroy`, `hash_destroy`) -/

/-- Externally visible teardown events. -/
inductive TEv where
  | rwdelete (l : Nat)
  | freeNode
  | freeList
  | freeTable
deriving DecidableEq, BEq

/-- Embedding of `list_destroy` (ll.c, shipped inside src/hash_table.h's companion ll.c
text): for every node, delete its lock if the `id` field is non-null, free
the node; finally free the list itself. -/
def list_destroy_events (b : List Entry) : List TEv :=
  (b.flatMap fun e =>
    (match e.id with
     | some l => [TEv.rwdelete l]
     | none => []) ++ [TEv.freeNode]) ++ [TEv.freeList]

/-- Embedding of `cleanup_file_locks` (src/unnamed/part_000, lines 80-101): if the registry
is null, return immediately; otherwise, for every bucket, first walk the
chain calling `rwlock_delete(&lock)` on a local copy of each node's `id` —
which nulls only the local variable, leaving `current->data.id` unchanged —
and then call `list_destroy` on the same bucket, whose nodes therefore still
carry their (already deleted) lock pointers. -/
def cleanup_file_locks_events (reg : Option Hashtable) : List TEv :=
  match reg with
  | none => []
  | some t =>
    t.flatMap fun b =>
      (b.flatMap fun e =>
        match e.id with
        | some l => [TEv.rwdelete l]
        | none => []) ++ list_destroy_events b

/-- Embedding of `hash_destroy` (src/hash_table.c): with no null check it immediately
dereferences the table (`(*ht)->table[i]`); a null table is a fault, modelled
as `Except.error`.  On a live table it destroys every bucket list and frees
the table. -/
def hash_destroy (reg : Option Hashtable) : Except Unit (List TEv) :=
  match reg with
  | none => Except.error ()
  | some t => Except.ok ((t.flatMap list_destroy_events) ++ [TEv.freeTable])

/-! ## Request handlers (`handle_get`, `handle_put`, src/unnamed/part_000) -/

/-- The `errno` values the handlers distinguish. -/
inductive Errno where
  | eacces
  | enoent
  | eisdir
  | other
deriving DecidableEq

/-- Externally visible events a handler performs, in program order. -/
inductive Ev where
  | resp (code : Nat)
  | audit (method : String) (code : Nat)
  | rlock (l : Nat)
  | runlock (l : Nat)
  | wlock (l : Nat)
  | wunlock (l : Nat)
  | sendfile (fd size : Nat)
  | copybytes (src dst size : Nat)
  | closefd (fd : Nat)
  | unlinkTmp
deriving DecidableEq

/-- A handler run: the events it performed, and whether it dereferenced a
null pointer (crashed) instead of returning. -/
structure Outcome where
  events : List Ev
  crashed : Bool
deriving DecidableEq

/-- Status codes carried by the `resp` events of a trace. -/
def respCodes (evs : List Ev) : List Nat :=
  evs.filterMap fun e =>
    match e with
    | Ev.resp c => some c
    | _ => none

/-- Status codes carried by the `audit` events of a trace. -/
def auditCodes (evs : List Ev) : List Nat :=
  evs.filterMap fun e =>
    match e with
    | Ev.audit _ c => some c
    | _ => none

/-- Result of `fstat` consumed by `handle_get`. -/
structure FStat where
  size : Nat
  isDir : Bool
deriving DecidableEq

/-- Environment of one `handle_get` run: what `open`, `get_file_lock`,
`fstat` and `conn_send_file` would return. When `openErr` is `none`, `fd` is
the opened descriptor. -/
structure GetEnv where
  openErr : Option Errno
  fd : Nat
  lockRes : Option Nat
  statErr : Bool
  st : FStat
  sendOk : Bool
deriving DecidableEq

/-- The GET open-failure status mapping (lines 258-271):
EACCES → 403, ENOENT → 404, anything else → 500. -/
def getErrCode : Errno → Nat
  | Errno.eacces => 403
  | Errno.enoent => 404
  | _ => 500

/-- Embedding of `handle_get` (src/unnamed/part_000, lines 253-312) as its event
trace.  The `conn_send_file` failure branch resends whatever error response
the helper produced and audits 500; per the spec's wire contract that
response is modelled as 500 (internal).  Note: the code calls
`reader_lock(lock)` without checking `get_file_lock`'s result, so a null
lock is a crash; and the `fstat`-failure and directory branches return
without closing `fd`. -/
def handle_get (e : GetEnv) : Outcome :=
  match e.openErr with
  | some err => ⟨[Ev.resp (getErrCode err), Ev.audit "GET" (getErrCode err)], false⟩
  | none =>
    match e.lockRes with
    | none => ⟨[], true⟩
    | some l =>
      if e.statErr then
        ⟨[Ev.rlock l, Ev.resp 500, Ev.audit "GET" 500, Ev.runlock l], false⟩
      else if e.st.isDir then
        ⟨[Ev.rlock l, Ev.resp 403, Ev.audit "GET" 403, Ev.runlock l], false⟩
      else if e.sendOk then
        ⟨[Ev.rlock l, Ev.sendfile e.fd e.st.size, Ev.audit "GET" 200,
          Ev.closefd e.fd, Ev.runlock l], false⟩
      else
        ⟨[Ev.rlock l, Ev.sendfile e.fd e.st.size, Ev.resp 500, Ev.audit "GET" 500,
          Ev.closefd e.fd, Ev.runlock l], false⟩

/-- Environment of one `handle_put` run: results of `mkstemp`,
`conn_recv_file`, `get_file_lock`, `access`, the target `open`, the temp-file
reopen, `fstat` and `pass_n_bytes`. -/
structure PutEnv where
  mkstempOk : Bool
  tmpfd : Nat
  recvOk : Bool
  lockRes : Option Nat
  existsBefore : Bool
  openErr : Option Errno
  targetFd : Nat
  reopenOk : Bool
  tmpfd2 : Nat
  fstatOk : Bool
  tmpSize : Nat
  copyOk : Bool
deriving DecidableEq

/-- Status the code actually produces when a PUT fails after the write lock:
500, except that a target-open failure with EACCES or EISDIR produces 403
(lines 356-363). -/
def putFailCode (e : PutEnv) : Nat :=
  match e.openErr with
  | some Errno.eacces => 403
  | some Errno.eisdir => 403
  | _ => 500

/-- Embedding of `handle_put` (src/unnamed/part_000, lines 324-421) as its event
trace.  As in `handle_get`, the result of `get_file_lock` is passed to
`writer_lock` without a null check, so a null lock is a crash. -/
def handle_put (e : PutEnv) : Outcome :=
  if ¬ e.mkstempOk then ⟨[Ev.resp 500, Ev.audit "PUT" 500], false⟩
  else if ¬ e.recvOk then
    ⟨[Ev.resp 500, Ev.audit "PUT" 500, Ev.closefd e.tmpfd, Ev.unlinkTmp], false⟩
  else
    match e.lockRes with
    | none => ⟨[Ev.closefd e.tmpfd], true⟩
    | some l =>
      match e.openErr with
      | some Errno.eacces =>
        ⟨[Ev.closefd e.tmpfd, Ev.wlock l, Ev.resp 403, Ev.audit "PUT" 403,
          Ev.unlinkTmp, Ev.wunlock l], false⟩
      | some Errno.eisdir =>
        ⟨[Ev.closefd e.tmpfd, Ev.wlock l, Ev.resp 403, Ev.audit "PUT" 403,
          Ev.unlinkTmp, Ev.wunlock l], false⟩
      | some _ =>
        ⟨[Ev.closefd e.tmpfd, Ev.wlock l, Ev.resp 500, Ev.audit "PUT" 500,
          Ev.unlinkTmp, Ev.wunlock l], false⟩
      | none =>
        if ¬ e.reopenOk then
          ⟨[Ev.closefd e.tmpfd, Ev.wlock l, Ev.resp 500, Ev.audit "PUT" 500,
            Ev.closefd e.targetFd, Ev.unlinkTmp, Ev.wunlock l], false⟩
        else if ¬ e.fstatOk then
          ⟨[Ev.closefd e.tmpfd, Ev.wlock l, Ev.resp 500, Ev.audit "PUT" 500,
            Ev.closefd e.targetFd, Ev.closefd e.tmpfd2, Ev.unlinkTmp, Ev.wunlock l], false⟩
        else if ¬ e.copyOk then
          ⟨[Ev.closefd e.tmpfd, Ev.wlock l,
            Ev.copybytes e.tmpfd2 e.targetFd e.tmpSize,
            Ev.resp 500, Ev.audit "PUT" 500,
            Ev.closefd e.targetFd, Ev.closefd e.tmpfd2, Ev.unlinkTmp, Ev.wunlock l], false⟩
        else
          ⟨[Ev.closefd e.tmpfd, Ev.wlock l,
            Ev.copybytes e.tmpfd2 e.targetFd e.tmpSize,
            Ev.closefd e.tmpfd2, Ev.closefd e.targetFd,
            Ev.resp (if e.existsBefore then 200 else 201),
            Ev.audit "PUT" (if e.existsBefore then 200 else 201),
            Ev.unlinkTmp, Ev.wunlock l], false⟩

/-! ## Startup argument handling (`main`, src/unnamed/part_000, lines 154-189) -/

/-- What startup does with a given argument vector: exit non-zero with a
usage/diagnostic message, exit non-zero with "Invalid Port", dereference a
null pointer (crash), or proceed to start the server with the given worker
thread count and port. -/
inductive StartOutcome where
  | usageExit
  | portExit
  | crash
  | started (threads : Int) (port : Nat)
deriving DecidableEq

/-- Embedding of `atoi`: skip leading blanks, optional sign, then leading digits; 0 when no
digits are present (overflow ignored; the inputs of interest are small). -/
def atoiDigits : List Char → Int → Int
  | [], acc => acc
  | c :: cs, acc =>
    if c.isDigit then atoiDigits cs (acc * 10 + (c.toNat - 48 : Nat)) else acc

def atoi (s : String) : Int :=
  let cs := s.data.dropWhile (fun c => c = ' ' ∨ c = '\t')
  match cs with
  | '-' :: rest => - atoiDigits rest 0
  | '+' :: rest => atoiDigits rest 0
  | _ => atoiDigits cs 0

/-- Digit run consumed by `strtoull`, returning the value and the rest. -/
def strtoullDigits : List Char → Nat → Nat × List Char
  | [], acc => (acc, [])
  | c :: cs, acc =>
    if c.isDigit then strtoullDigits cs (acc * 10 + (c.toNat - 48)) else (acc, c :: cs)

/-- Embedding of `strtoull(s, &endptr, 10)`: skip blanks, optional sign (a negative value
wraps modulo 2^64), consume a digit run; returns the value and the suffix
`endptr` points at.  An empty digit run yields value 0 with `endptr` at the
start, exactly as the C function behaves. -/
def strtoullM (s : String) : Nat × List Char :=
  let cs := s.data.dropWhile (fun c => c = ' ' ∨ c = '\t')
  match cs with
  | '-' :: rest =>
    let (v, r) := strtoullDigits rest 0
    ((2 ^ 64 - v % 2 ^ 64) % 2 ^ 64, r)
  | '+' :: rest => strtoullDigits rest 0
  | _ => strtoullDigits cs 0

/-- Kernel-reducible test that `s` begins with `pre` (same observable
behavior as the C-level option-prefix checks). -/
def strStarts (pre s : String) : Bool := pre.data.isPrefixOf s.data

/-- The `getopt(argc, argv, "t:")` loop (lines 164-169): `-t` takes the next
argument (or its own tail, as in `-t4`) as `optarg` and stores `atoi(optarg)`
into the thread count with no validation; an unknown option or a missing
option argument makes `getopt` return `?` and `main` exit with usage; the
first non-option argument stops option processing.  (GNU argument
permutation is not modelled; the claims only exercise option-first vectors.) -/
def getoptLoop : List String → Int → Except Unit (Int × List String)
  | [], t => Except.ok (t, [])
  | a :: rest, t =>
    if a = "--" then Except.ok (t, rest)
    else if a = "-t" then
      match rest with
      | [] => Except.error ()
      | optarg :: rest2 => getoptLoop rest2 (atoi optarg)
    else if strStarts "-t" a then getoptLoop rest (atoi (String.mk (a.data.drop 2)))
    else if strStarts "-" a ∧ a ≠ "-" then Except.error ()
    else Except.ok (t, a :: rest)

/-- Embedding of the argument handling in `main` (lines 154-189), for the argument vector after
the program name.  With no arguments at all it prints usage and exits; after
option processing the port is read from `argv[optind]` — when the options
consumed every argument that slot holds the terminating null pointer and
`strtoull` dereferences it (crash); the parsed port must consume the whole
argument and lie in [1, 65535], else "Invalid Port" and a non-zero exit.
The thread count is whatever `atoi` produced, used unvalidated. -/
def mainStartup (args : List String) : StartOutcome :=
  if args.length < 1 then StartOutcome.usageExit
  else
    match getoptLoop args 4 with
    | Except.error _ => StartOutcome.usageExit
    | Except.ok (threads, rest) =>
      match rest with
      | [] => StartOutcome.crash
      | pstr :: _ =>
        let (port, rem) := strtoullM pstr
        if rem ≠ [] then StartOutcome.portExit
        else if port < 1 ∨ port > 65535 then StartOutcome.portExit
        else StartOutcome.started threads port

/-! ## Concrete instances used in counterexamples and witnesses -/

/-- A 254-character key: exactly the key bound. -/
def keyB : String := String.mk (List.replicate KEY_BOUND 'a')

/-- A 255-character key whose truncation is `keyB` and whose byte-sum hash
lands in a different bucket (+64 ≠ 0 mod 128). -/
def keyA1 : String := String.mk (List.replicate KEY_BOUND 'a' ++ ['@'])

/-- A 256-character key whose truncation is `keyB` and whose byte-sum hash
lands in the same bucket (+128 ≡ 0 mod 128). -/
def keyA2 : String := String.mk (List.replicate KEY_BOUND 'a' ++ ['@', '@'])

/-- A GET whose `open` fails with EACCES (used as concrete witness input). -/
def envGetEacces : GetEnv := ⟨some Errno.eacces, 3, none, false, ⟨0, false⟩, true⟩

/-- A GET of a directory: `open` succeeds (fd 3), the lock is lock 1, `fstat`
succeeds and reports a directory. -/
def envGetDir : GetEnv := ⟨none, 3, some 1, false, ⟨0, true⟩, true⟩

/-- A GET where `open` succeeds but `get_file_lock` fails (returns null). -/
def envGetNoLock : GetEnv := ⟨none, 3, none, false, ⟨5, false⟩, true⟩

/-- A PUT where the receive succeeds but `get_file_lock` fails (returns null). -/
def envPutNoLock : PutEnv := ⟨true, 4, true, none, false, none, 5, true, 6, true, 7, true⟩

/-- A PUT holding the write lock whose target `open` fails with EACCES. -/
def envPutEacces : PutEnv :=
  ⟨true, 3, true, some 1, true, some Errno.eacces, 4, true, 5, true, 7, true⟩

/-- A PUT holding the write lock whose target `open` fails with an errno other
than EACCES / EISDIR. -/
def envPutOther : PutEnv :=
  ⟨true, 3, true, some 1, true, some Errno.other, 4, true, 5, true, 7, true⟩

/-- A registry holding one path ("a") mapped to lock 7. -/
def regOneLock : Hashtable := hash_put hashFn hash_create "a" (some 7)

/-- The table after putting `keyA1` (truncates to `keyB`, lands in bucket 126)
and then `keyB` (bucket 62). -/
def tblDup : Hashtable :=
  hash_put hashFn (hash_put hashFn hash_create keyA1 (some 1)) keyB (some 2)

/-- Per-bucket key distinctness: no bucket chain holds two live entries with
the same stored key. -/
def bucketsNodup (t : Hashtable) : Prop := ∀ b ∈ t, (b.map Entry.key).Nodup

/-! ## Generic list lemmas -/

theorem getD_set_self {α : Type} (l : List α) (i : Nat) (x d : α) (h : i < l.length) :
    (l.set i x).getD i d = x := by
  induction l generalizing i with
  | nil => simp at h
  | cons a as ih =>
    cases i with
    | zero => rfl
    | succ n => exact ih n (by simpa using h)

theorem getD_set_ne {α : Type} (l : List α) (i j : Nat) (x d : α) (h : i ≠ j) :
    (l.set i x).getD j d = l.getD j d := by
  induction l generalizing i j with
  | nil => simp
  | cons a as ih =>
    cases i with
    | zero =>
      cases j with
      | zero => exact absurd rfl h
      | succ m => rfl
    | succ n =>
      cases j with
      | zero => rfl
      | succ m => exact ih n m (by omega)

theorem getD_default_of_le {α : Type} (l : List α) (i : Nat) (d : α)
    (h : l.length ≤ i) : l.getD i d = d := by
  induction l generalizing i with
  | nil => simp [List.getD]
  | cons a as ih =>
    cases i with
    | zero => simp at h
    | succ n => exact ih n (by simpa using h)

theorem getD_mem {α : Type} (l : List α) (i : Nat) (d : α) (h : i < l.length) :
    l.getD i d ∈ l := by
  induction l generalizing i with
  | nil => simp at h
  | cons a as ih =>
    cases i with
    | zero => exact List.mem_cons_self a as
    | succ n => exact List.mem_cons_of_mem a (ih n (by simpa using h))

theorem getD_replicate {α : Type} (n i : Nat) (d : α) :
    (List.replicate n d).getD i d = d := by
  induction n generalizing i with
  | zero => simp [List.getD]
  | succ m ih =>
    cases i with
    | zero => rfl
    | succ j => exact ih j

theorem map_set {α β : Type} (f : α → β) (l : List α) (i : Nat) (x : α) :
    (l.set i x).map f = (l.map f).set i (f x) := by
  induction l generalizing i with
  | nil => simp
  | cons a as ih =>
    cases i with
    | zero => simp
    | succ n => simp [ih n]

theorem set_getD_self {α : Type} (l : List α) (i : Nat) (d : α) (h : i < l.length) :
    l.set i (l.getD i d) = l := by
  induction l generalizing i with
  | nil => simp
  | cons a as ih =>
    cases i with
    | zero => rfl
    | succ n => exact congrArg (List.cons a) (ih n (by simpa using h))

theorem getD_map {α β : Type} (f : α → β) (l : List α) (i : Nat) (d : α) :
    (l.map f).getD i (f d) = f (l.getD i d) := by
  induction l generalizing i with
  | nil => rfl
  | cons a as ih =>
    cases i with
    | zero => rfl
    | succ n => exact ih n

/-! ## Lemmas about `updateFirst` -/

theorem map_key_updateFirst (b : List Entry) (tk : String) (v : Option Nat) :
    (updateFirst b tk v).map Entry.key = b.map Entry.key := by
  induction b with
  | nil => rfl
  | cons e es ih =>
    by_cases h : (e.key == tk) = true
    · simp [updateFirst, h]
    · simp [updateFirst, h, ih]

theorem length_updateFirst (b : List Entry) (tk : String) (v : Option Nat) :
    (updateFirst b tk v).length = b.length := by
  induction b with
  | nil => rfl
  | cons e es ih =>
    by_cases h : (e.key == tk) = true
    · simp [updateFirst, h]
    · simp [updateFirst, h, ih]

theorem find?_cons_pos (p : Entry → Bool) (a : Entry) (l : List Entry) (h : p a = true) :
    List.find? p (a :: l) = some a := by
  simp [List.find?, h]

theorem find?_cons_neg (p : Entry → Bool) (a : Entry) (l : List Entry) (h : p a = false) :
    List.find? p (a :: l) = List.find? p l := by
  simp [List.find?, h]

theorem find?_updateFirst_self (b : List Entry) (tk : String) (v : Option Nat) (e : Entry)
    (hf : b.find? (fun x => x.key == tk) = some e) :
    (updateFirst b tk v).find? (fun x => x.key == tk) = some { e with id := v } := by
  induction b with
  | nil => simp at hf
  | cons a as ih =>
    by_cases h : (a.key == tk) = true
    · rw [find?_cons_pos (fun x => x.key == tk) a as h] at hf
      cases hf
      simp only [updateFirst, if_pos h]
      exact find?_cons_pos (fun x => x.key == tk) { key := e.key, id := v } as h
    · have hfalse : (a.key == tk) = false := by simpa using h
      rw [find?_cons_neg (fun x => x.key == tk) a as hfalse] at hf
      simp only [updateFirst, if_neg h]
      rw [find?_cons_neg (fun x => x.key == tk) a (updateFirst as tk v) hfalse]
      exact ih hf

theorem find?_updateFirst_none (b : List Entry) (tk s : String) (v : Option Nat)
    (hf : b.find? (fun x => x.key == s) = none) :
    (updateFirst b tk v).find? (fun x => x.key == s) = none := by
  induction b with
  | nil => rfl
  | cons a as ih =>
    rw [List.find?_eq_none] at hf
    have ha : (a.key == s) = false := by
      have := hf a (List.mem_cons_self a as)
      simpa using this
    have has : as.find? (fun x => x.key == s) = none := by
      rw [List.find?_eq_none]
      exact fun x hx => hf x (List.mem_cons_of_mem a hx)
    by_cases h : (a.key == tk) = true
    · simp only [updateFirst, if_pos h]
      rw [find?_cons_neg (fun x => x.key == s) { key := a.key, id := v } as ha]
      exact has
    · simp only [updateFirst, if_neg h]
      rw [find?_cons_neg (fun x => x.key == s) a (updateFirst as tk v) ha]
      exact ih has

/-! ## Lemmas about `hash_put` and `hash_get` -/

theorem bucketIdx_lt (h : String → Nat) (k : String) : bucketIdx h k < TABLE_SIZE :=
  Nat.mod_lt _ (by decide)

theorem length_hash_put (h : String → Nat) (t : Hashtable) (k : String) (v : Option Nat) :
    (hash_put h t k v).length = t.length := by
  cases hm : (t.getD (bucketIdx h k) []).find? (fun e => e.key == trunc k) with
  | none =>
    simp only [hash_put, hm]
    simp
  | some e =>
    simp only [hash_put, hm]
    simp

theorem hash_get_create (h : String → Nat) (k : String) :
    hash_get h hash_create k = none := by
  simp [hash_get, hash_create, getD_replicate]

theorem hash_get_put_self (h : String → Nat) (t : Hashtable) (k : String) (v : Option Nat)
    (hwf : t.length = TABLE_SIZE) :
    hash_get h (hash_put h t k v) k = some v := by
  have hidx : bucketIdx h k < t.length := by rw [hwf]; exact bucketIdx_lt h k
  cases hm : (t.getD (bucketIdx h k) []).find? (fun e => e.key == trunc k) with
  | some e =>
    have hupd := find?_updateFirst_self (t.getD (bucketIdx h k) []) (trunc k) v e hm
    simp only [hash_put, hm, hash_get]
    rw [getD_set_self _ _ _ _ hidx, hupd]
    rfl
  | none =>
    simp only [hash_put, hm, hash_get]
    rw [getD_set_self _ _ _ _ hidx]
    rw [find?_cons_pos (fun e => e.key == trunc k) { key := trunc k, id := v } _ (by simp)]
    rfl

theorem hash_get_put_frame_some (h : String → Nat) (t : Hashtable) (q p : String)
    (v x : Option Nat) (hwf : t.length = TABLE_SIZE)
    (hq : hash_get h t q = none) (hp : hash_get h t p = some x) :
    hash_get h (hash_put h t q v) p = some x := by
  have hfq : (t.getD (bucketIdx h q) []).find? (fun e => e.key == trunc q) = none := by
    simpa [hash_get, Option.map_eq_none'] using hq
  have hidx : bucketIdx h q < t.length := by rw [hwf]; exact bucketIdx_lt h q
  simp only [hash_put, hfq]
  by_cases hij : bucketIdx h q = bucketIdx h p
  · obtain ⟨e, he, hei⟩ :
        ∃ e, (t.getD (bucketIdx h p) []).find? (fun y => y.key == trunc p) = some e ∧
          e.id = x := by
      simpa [hash_get, Option.map_eq_some'] using hp
    by_cases htr : trunc q = trunc p
    · rw [htr, hij] at hfq
      rw [hfq] at he
      exact absurd he (by simp)
    · have hbeq : (trunc q == trunc p) = false := beq_eq_false_iff_ne.mpr htr
      simp only [hash_get]
      rw [← hij, getD_set_self _ _ _ _ hidx]
      rw [find?_cons_neg (fun y => y.key == trunc p)
        { key := trunc q, id := v } _ hbeq]
      rw [hij, he]
      simp [hei]
  · simp only [hash_get]
    rw [getD_set_ne _ _ _ _ _ hij]
    exact hp

theorem hash_get_put_frame_none (h : String → Nat) (t : Hashtable) (q k : String)
    (v : Option Nat) (hwf : t.length = TABLE_SIZE) (htr : trunc q ≠ trunc k)
    (hk : hash_get h t k = none) :
    hash_get h (hash_put h t q v) k = none := by
  have hfk : (t.getD (bucketIdx h k) []).find? (fun e => e.key == trunc k) = none := by
    simpa [hash_get, Option.map_eq_none'] using hk
  have hidx : bucketIdx h q < t.length := by rw [hwf]; exact bucketIdx_lt h q
  have hbeq : (trunc q == trunc k) = false := beq_eq_false_iff_ne.mpr htr
  cases hm : (t.getD (bucketIdx h q) []).find? (fun e => e.key == trunc q) with
  | some e =>
    simp only [hash_put, hm, hash_get]
    by_cases hij : bucketIdx h q = bucketIdx h k
    · rw [← hij, getD_set_self _ _ _ _ hidx]
      rw [← hij] at hfk
      rw [find?_updateFirst_none _ _ _ _ hfk]
      rfl
    · rw [getD_set_ne _ _ _ _ _ hij]
      rw [hfk]
      rfl
  | none =>
    simp only [hash_put, hm, hash_get]
    by_cases hij : bucketIdx h q = bucketIdx h k
    · rw [← hij, getD_set_self _ _ _ _ hidx]
      rw [find?_cons_neg (fun e => e.key == trunc k) { key := trunc q, id := v } _ hbeq]
      rw [← hij] at hfk
      rw [hfk]
      rfl
    · rw [getD_set_ne _ _ _ _ _ hij]
      rw [hfk]
      rfl

theorem hash_get_putAll_none_aux (h : String → Nat) :
    ∀ (ps : List (String × Option Nat)) (q : String) (t : Hashtable),
      (∀ p ∈ ps, trunc p.1 ≠ trunc q) → t.length = TABLE_SIZE →
      hash_get h t q = none → hash_get h (putAll h t ps) q = none := by
  intro ps
  induction ps with
  | nil =>
    intro q t _ _ hq
    simpa [putAll] using hq
  | cons p ps ih =>
    intro q t hps hwf hq
    have hstep : putAll h t (p :: ps) = putAll h (hash_put h t p.1 p.2) ps := rfl
    rw [hstep]
    exact ih q (hash_put h t p.1 p.2)
      (fun r hr => hps r (List.mem_cons_of_mem p hr))
      (by rw [length_hash_put]; exact hwf)
      (hash_get_put_frame_none h t p.1 q p.2 hwf (hps p (List.mem_cons_self p ps)) hq)

/-! ## Bucket-level invariants -/

theorem bucketsNodup_create : bucketsNodup hash_create := by
  intro b hb
  have hb2 : b = [] := List.eq_of_mem_replicate hb
  simp [hb2]

theorem bucketsNodup_put (h : String → Nat) (t : Hashtable) (k : String) (v : Option Nat)
    (ht : bucketsNodup t) : bucketsNodup (hash_put h t k v) := by
  intro b hb
  cases hm : (t.getD (bucketIdx h k) []).find? (fun e => e.key == trunc k) with
  | some e =>
    simp only [hash_put, hm] at hb
    rcases List.mem_or_eq_of_mem_set hb with hmem | heq
    · exact ht b hmem
    · subst heq
      rw [map_key_updateFirst]
      rcases Nat.lt_or_ge (bucketIdx h k) t.length with hlt | hge
      · exact ht _ (getD_mem _ _ _ hlt)
      · rw [getD_default_of_le _ _ _ hge] at hm
        simp [List.find?] at hm
  | none =>
    simp only [hash_put, hm] at hb
    rcases List.mem_or_eq_of_mem_set hb with hmem | heq
    · exact ht b hmem
    · subst heq
      simp only [List.map_cons]
      refine List.nodup_cons.mpr ⟨?_, ?_⟩
      · intro hmemk
        rcases List.mem_map.mp hmemk with ⟨e, hme, hke⟩
        rw [List.find?_eq_none] at hm
        exact hm e hme (by simp [hke])
      · rcases Nat.lt_or_ge (bucketIdx h k) t.length with hlt | hge
        · exact ht _ (getD_mem _ _ _ hlt)
        · rw [getD_default_of_le _ _ _ hge]
          simp

theorem bucketsNodup_putAll (h : String → Nat) (ps : List (String × Option Nat)) :
    bucketsNodup (putAll h hash_create ps) := by
  suffices H : ∀ t, bucketsNodup t → bucketsNodup (putAll h t ps) from
    H hash_create bucketsNodup_create
  induction ps with
  | nil =>
    intro t ht
    simpa [putAll] using ht
  | cons p ps ih =>
    intro t ht
    have hstep : putAll h t (p :: ps) = putAll h (hash_put h t p.1 p.2) ps := rfl
    rw [hstep]
    exact ih _ (bucketsNodup_put h t p.1 p.2 ht)

theorem tableKeys_put_overwrite (h : String → Nat) (t : Hashtable) (k : String)
    (v x : Option Nat) (hget : hash_get h t k = some x) :
    tableKeys (hash_put h t k v) = tableKeys t := by
  obtain ⟨e, he, _⟩ :
      ∃ e, (t.getD (bucketIdx h k) []).find? (fun y => y.key == trunc k) = some e ∧
        e.id = x := by
    simpa [hash_get, Option.map_eq_some'] using hget
  have hlt : bucketIdx h k < t.length := by
    by_contra hge
    rw [getD_default_of_le _ _ _ (Nat.le_of_not_lt hge)] at he
    simp [List.find?] at he
  simp only [hash_put, he]
  unfold tableKeys
  rw [map_set, map_key_updateFirst]
  have hgd : (t.getD (bucketIdx h k) []).map Entry.key =
      (t.map (fun b => b.map Entry.key)).getD (bucketIdx h k)
        (([] : List Entry).map Entry.key) := (getD_map _ _ _ _).symm
  rw [hgd]
  exact set_getD_self _ _ _ (by simpa using hlt)

theorem entryCount_put_overwrite (h : String → Nat) (t : Hashtable) (k : String)
    (v x : Option Nat) (hget : hash_get h t k = some x) :
    entryCount (hash_put h t k v) = entryCount t := by
  obtain ⟨e, he, _⟩ :
      ∃ e, (t.getD (bucketIdx h k) []).find? (fun y => y.key == trunc k) = some e ∧
        e.id = x := by
    simpa [hash_get, Option.map_eq_some'] using hget
  have hlt : bucketIdx h k < t.length := by
    by_contra hge
    rw [getD_default_of_le _ _ _ (Nat.le_of_not_lt hge)] at he
    simp [List.find?] at he
  simp only [hash_put, he]
  unfold entryCount
  rw [map_set, length_updateFirst]
  have hgd : (t.getD (bucketIdx h k) []).length =
      (t.map List.length).getD (bucketIdx h k) ([] : List Entry).length :=
    (getD_map _ _ _ _).symm
  rw [hgd]
  rw [set_getD_self _ _ _ (by simpa using hlt)]

/-! ## Registry lemmas -/

theorem get_file_lock_preserves (h : String → Nat) (s : GState) (q : String) (o : Oracle)
    (p : String) (x : Option Nat) (hwf : s.table.length = TABLE_SIZE)
    (hx : hash_get h s.table p = some x) :
    hash_get h ((get_file_lock h s q o).2).table p = some x ∧
    ((get_file_lock h s q o).2).table.length = TABLE_SIZE := by
  cases hq : hash_get h s.table q with
  | some stored =>
    simp only [get_file_lock, hq]
    exact ⟨hx, hwf⟩
  | none =>
    rcases o with ⟨nl, pk⟩
    cases nl with
    | false =>
      simp only [get_file_lock, hq]
      simp only [Bool.false_eq_true, if_false]
      exact ⟨hx, hwf⟩
    | true =>
      cases pk with
      | false =>
        simp only [get_file_lock, hq]
        simp
        exact ⟨hx, hwf⟩
      | true =>
        simp only [get_file_lock, hq]
        simp only [if_true]
        refine ⟨hash_get_put_frame_some h s.table q p (some s.next) x hwf hq hx, ?_⟩
        rw [length_hash_put]
        exact hwf

theorem runCalls_preserves (h : String → Nat) (calls : List (String × Oracle)) :
    ∀ (s : GState) (p : String) (x : Option Nat),
      s.table.length = TABLE_SIZE → hash_get h s.table p = some x →
      hash_get h (runCalls h s calls).table p = some x ∧
      (runCalls h s calls).table.length = TABLE_SIZE := by
  induction calls with
  | nil =>
    intro s p x hwf hx
    exact ⟨hx, hwf⟩
  | cons c cs ih =>
    intro s p x hwf hx
    have hstep := get_file_lock_preserves h s c.1 c.2 p x hwf hx
    have hrw : runCalls h s (c :: cs) = runCalls h ((get_file_lock h s c.1 c.2).2) cs := rfl
    rw [hrw]
    exact ih _ p x hstep.2 hstep.1

theorem get_file_lock_success (h : String → Nat) (s : GState) (p : String) (o : Oracle)
    (l : Nat) (hwf : s.table.length = TABLE_SIZE)
    (hl : (get_file_lock h s p o).1 = some l) :
    hash_get h ((get_file_lock h s p o).2).table p = some (some l) ∧
    ((get_file_lock h s p o).2).table.length = TABLE_SIZE := by
  cases hq : hash_get h s.table p with
  | some stored =>
    simp only [get_file_lock, hq] at hl ⊢
    exact ⟨by rw [hl], hwf⟩
  | none =>
    rcases o with ⟨nl, pk⟩
    cases nl with
    | false => simp [get_file_lock, hq] at hl
    | true =>
      cases pk with
      | false => simp [get_file_lock, hq] at hl
      | true =>
        simp only [get_file_lock, hq, if_true] at hl ⊢
        have hls : l = s.next := by
          have := hl
          simp at this
          omega
        subst hls
        refine ⟨hash_get_put_self h s.table p (some s.next) hwf, ?_⟩
        rw [length_hash_put]
        exact hwf

/-! ## Claim theorems -/

/-- C1: `get_file_lock` looks the path up and returns the stored lock when an
entry exists, otherwise inserts and returns a fresh lock — so any two calls
with the same path that both succeed (here: separated by an arbitrary
sequence of other registry calls) return the identical lock instance. -/
theorem get_file_lock_no_duplicate (h : String → Nat) (s : GState) (p : String)
    (o1 o2 : Oracle) (calls : List (String × Oracle)) (l1 l2 : Nat)
    (hwf : s.table.length = TABLE_SIZE)
    (h1 : (get_file_lock h s p o1).1 = some l1)
    (h2 : (get_file_lock h (runCalls h (get_file_lock h s p o1).2 calls) p o2).1 =
      some l2) :
    l2 = l1 := by
  have hsucc := get_file_lock_success h s p o1 l1 hwf h1
  have hrun := runCalls_preserves h calls _ p (some l1) hsucc.2 hsucc.1
  have hrun1 := hrun.1
  set s2 := runCalls h (get_file_lock h s p o1).2 calls with hs2
  simp only [get_file_lock, hrun1] at h2
  simpa using h2.symm

/-- Witness for C1: on the fresh registry, a call for "a" succeeds with
lock 0; after an interleaved call for "b", a second call for "a" again
returns lock 0. -/
theorem get_file_lock_no_duplicate_witness :
    initRegistry.table.length = TABLE_SIZE ∧
    (get_file_lock hashFn initRegistry "a" ⟨true, true⟩).1 = some 0 ∧
    (get_file_lock hashFn
        (runCalls hashFn (get_file_lock hashFn initRegistry "a" ⟨true, true⟩).2
          [("b", ⟨true, true⟩)]) "a" ⟨true, true⟩).1 = some 0 ∧
    (0 : Nat) = 0 :=
  ⟨by decide, by decide, by decide,
    get_file_lock_no_duplicate hashFn initRegistry "a" ⟨true, true⟩ ⟨true, true⟩
      [("b", ⟨true, true⟩)] 0 0 (by decide) (by decide) (by decide)⟩

/-- C2 (code bug): when `get_file_lock` fails and returns null, the GET and
PUT handlers do not respond 500 — they pass the null lock straight to
`reader_lock` / `writer_lock` and dereference it (crash), sending no
response at all. -/
theorem lock_failure_dereferenced :
    (handle_get envGetNoLock).crashed = true ∧
    respCodes (handle_get envGetNoLock).events = [] ∧
    (handle_put envPutNoLock).crashed = true ∧
    respCodes (handle_put envPutNoLock).events = [] := by decide

/-- Counterexample for C3: with the byte-sum model of the missing string
hash, inserting the 256-character key `keyA2` stores its 254-character
truncation in the bucket of the untruncated key; looking up the
never-inserted key `keyB` (that same truncation, same bucket) then returns
the stored value instead of the not-found signal. -/
theorem hash_get_truncation_alias :
    keyA2 ≠ keyB ∧
    hash_get hashFn (hash_put hashFn hash_create keyA2 (some 1)) keyB = some (some 1) := by
  constructor
  · decide
  · decide

/-- C3 (amended): for any hash function, `hash_put` on an existing key
overwrites in place (entry count unchanged) and on a new key prepends a new
entry to the key's bucket; `hash_get` right after `hash_put` of key K
returns the latest value, and `hash_get` on a key sharing no 254-byte
truncation with any inserted key returns the not-found signal. -/
theorem hash_map_put_get_spec (h : String → Nat) (t : Hashtable) (k : String)
    (v : Option Nat) (ps : List (String × Option Nat)) (q : String)
    (hwf : t.length = TABLE_SIZE)
    (hq : ∀ p ∈ ps, trunc p.1 ≠ trunc q) :
    hash_get h (hash_put h t k v) k = some v ∧
    hash_get h (putAll h hash_create ps) q = none ∧
    (∀ x : Option Nat, hash_get h t k = some x →
      entryCount (hash_put h t k v) = entryCount t) ∧
    (hash_get h t k = none →
      hash_put h t k v =
        t.set (bucketIdx h k) ({ key := trunc k, id := v } :: t.getD (bucketIdx h k) [])) := by
  refine ⟨hash_get_put_self h t k v hwf, ?_, ?_, ?_⟩
  · exact hash_get_putAll_none_aux h ps q hash_create hq (by simp [hash_create])
      (hash_get_create h q)
  · intro x hx
    exact entryCount_put_overwrite h t k v x hx
  · intro hnone
    have hf : (t.getD (bucketIdx h k) []).find? (fun e => e.key == trunc k) = none := by
      simpa [hash_get, Option.map_eq_none'] using hnone
    simp only [hash_put, hf]

/-- Witness for C3 (amended), at the byte-sum hash and small concrete keys. -/
theorem hash_map_put_get_spec_witness :
    hash_create.length = TABLE_SIZE ∧
    (∀ p ∈ [(("x" : String), (some 1 : Option Nat))], trunc p.1 ≠ trunc "yz") ∧
    hash_get hashFn (hash_put hashFn hash_create "k" (some 5)) "k" = some (some 5) ∧
    hash_get hashFn (putAll hashFn hash_create [("x", some 1)]) "yz" = none :=
  ⟨by decide, by decide,
    (hash_map_put_get_spec hashFn hash_create "k" (some 5) [("x", some 1)] "yz"
      (by decide) (by decide)).1,
    (hash_map_put_get_spec hashFn hash_create "k" (some 5) [("x", some 1)] "yz"
      (by decide) (by decide)).2.1⟩

/-- Counterexample for C4: with the byte-sum model of the missing string
hash, the 255-character key `keyA1` truncates to `keyB` but hashes to a
different bucket, so putting `keyA1` and then `keyB` leaves two live
entries with the identical stored key. -/
theorem hash_put_duplicate_key_across_buckets :
    trunc keyA1 = trunc keyB ∧ keyA1 ≠ keyB ∧ entriesWithKey tblDup keyB = 2 := by
  refine ⟨?_, ?_, ?_⟩ <;> decide

/-- C4 (amended): each stored key maps to at most one live entry per bucket
(every bucket's key list is duplicate-free after any sequence of puts), and
a put whose key is found in its own bucket — same truncation and same bucket
index — updates in place, leaving the stored keys of the whole table
unchanged. -/
theorem hash_put_bucket_unique (h : String → Nat) (ps : List (String × Option Nat))
    (b : List Entry) (hb : b ∈ putAll h hash_create ps)
    (t : Hashtable) (k : String) (v x : Option Nat)
    (hget : hash_get h t k = some x) :
    (b.map Entry.key).Nodup ∧ tableKeys (hash_put h t k v) = tableKeys t :=
  ⟨bucketsNodup_putAll h ps b hb, tableKeys_put_overwrite h t k v x hget⟩

/-- Witness for C4 (amended), at the byte-sum hash and a one-entry table. -/
theorem hash_put_bucket_unique_witness :
    ([({ key := "k", id := some 1 } : Entry)] ∈ putAll hashFn hash_create [("k", some 1)]) ∧
    hash_get hashFn (hash_put hashFn hash_create "k" (some 1)) "k" = some (some 1) ∧
    (([({ key := "k", id := some 1 } : Entry)]).map Entry.key).Nodup ∧
    tableKeys (hash_put hashFn (hash_put hashFn hash_create "k" (some 1)) "k" (some 2)) =
      tableKeys (hash_put hashFn hash_create "k" (some 1)) :=
  ⟨by decide, by decide,
    (hash_put_bucket_unique hashFn [("k", some 1)] [{ key := "k", id := some 1 }]
      (by decide) (hash_put hashFn hash_create "k" (some 1)) "k" (some 2) (some 1)
      (by decide)).1,
    (hash_put_bucket_unique hashFn [("k", some 1)] [{ key := "k", id := some 1 }]
      (by decide) (hash_put hashFn hash_create "k" (some 1)) "k" (some 2) (some 1)
      (by decide)).2⟩

/-- C5: a GET whose open fails sends exactly the mapped response — EACCES
yields 403, ENOENT yields 404, any other open failure yields 500 — together
with exactly one audit record, and returns before any lock is taken. -/
theorem handle_get_open_failure_map (e : GetEnv) (err : Errno)
    (hopen : e.openErr = some err) :
    handle_get e = ⟨[Ev.resp (getErrCode err), Ev.audit "GET" (getErrCode err)], false⟩ ∧
    (err = Errno.eacces → getErrCode err = 403) ∧
    (err = Errno.enoent → getErrCode err = 404) ∧
    (err ≠ Errno.eacces → err ≠ Errno.enoent → getErrCode err = 500) ∧
    (∀ l, Ev.rlock l ∉ (handle_get e).events) ∧
    (∀ l, Ev.wlock l ∉ (handle_get e).events) ∧
    (auditCodes (handle_get e).events).length = 1 := by
  have hge :
      handle_get e = ⟨[Ev.resp (getErrCode err), Ev.audit "GET" (getErrCode err)], false⟩ := by
    simp [handle_get, hopen]
  refine ⟨hge, ?_, ?_, ?_, ?_, ?_, ?_⟩
  · intro he
    subst he
    rfl
  · intro he
    subst he
    rfl
  · intro hne1 hne2
    cases err with
    | eacces => exact absurd rfl hne1
    | enoent => exact absurd rfl hne2
    | eisdir => rfl
    | other => rfl
  · intro l
    rw [hge]
    simp
  · intro l
    rw [hge]
    simp
  · rw [hge]
    simp [auditCodes]

/-- Witness for C5: a GET whose open fails with EACCES produces exactly the
403 response and 403 audit record. -/
theorem handle_get_open_failure_map_witness :
    envGetEacces.openErr = some Errno.eacces ∧
    handle_get envGetEacces = ⟨[Ev.resp 403, Ev.audit "GET" 403], false⟩ :=
  ⟨rfl, (handle_get_open_failure_map envGetEacces Errno.eacces rfl).1⟩

/-- Counterexample for C6: a PUT whose target open fails with EACCES after
the write lock is taken responds 403, not 500 as the claim states — though
it does remove the temp file and release the write lock. -/
theorem handle_put_open_fail_403 :
    respCodes (handle_put envPutEacces).events = [403] ∧
    respCodes (handle_put envPutEacces).events ≠ [500] ∧
    envPutEacces.lockRes = some 1 ∧
    Ev.unlinkTmp ∈ (handle_put envPutEacces).events ∧
    Ev.wunlock 1 ∈ (handle_put envPutEacces).events := by decide

/-- C6 (amended): for every PUT failing after the write lock is taken
(target open failure, temp reopen failure, fstat failure, or copy failure),
the handler removes the temp file, releases the write lock, returns without
crashing, and sends exactly one response and one audit record carrying 500 —
except a target-open failure with EACCES or EISDIR, which carries 403. -/
theorem handle_put_fail_cleanup (e : PutEnv) (l : Nat)
    (hmk : e.mkstempOk = true) (hrecv : e.recvOk = true) (hlock : e.lockRes = some l)
    (hfail : e.openErr ≠ none ∨ e.reopenOk = false ∨ e.fstatOk = false ∨
      e.copyOk = false) :
    Ev.unlinkTmp ∈ (handle_put e).events ∧
    Ev.wunlock l ∈ (handle_put e).events ∧
    respCodes (handle_put e).events = [putFailCode e] ∧
    auditCodes (handle_put e).events = [putFailCode e] ∧
    (handle_put e).crashed = false := by
  cases hop : e.openErr with
  | some err =>
    cases err <;>
      simp [handle_put, hmk, hrecv, hlock, hop, putFailCode, respCodes, auditCodes]
  | none =>
    rcases hfail with hf | hf | hf | hf
    · exact absurd hop hf
    · simp [handle_put, hmk, hrecv, hlock, hop, hf, putFailCode, respCodes, auditCodes]
    · cases hro : e.reopenOk <;>
        simp [handle_put, hmk, hrecv, hlock, hop, hro, hf, putFailCode, respCodes,
          auditCodes]
    · cases hro : e.reopenOk with
      | false =>
        simp [handle_put, hmk, hrecv, hlock, hop, hro, putFailCode, respCodes, auditCodes]
      | true =>
        cases hfs : e.fstatOk <;>
          simp [handle_put, hmk, hrecv, hlock, hop, hro, hfs, hf, putFailCode, respCodes,
            auditCodes]

/-- Witness for C6 (amended): a PUT whose target open fails with a
non-EACCES/EISDIR errno after the write lock responds 500, removes the temp
file and releases the lock. -/
theorem handle_put_fail_cleanup_witness :
    envPutOther.mkstempOk = true ∧ envPutOther.recvOk = true ∧
    envPutOther.lockRes = some 1 ∧ envPutOther.openErr ≠ none ∧
    (Ev.unlinkTmp ∈ (handle_put envPutOther).events ∧
     Ev.wunlock 1 ∈ (handle_put envPutOther).events ∧
     respCodes (handle_put envPutOther).events = [putFailCode envPutOther] ∧
     auditCodes (handle_put envPutOther).events = [putFailCode envPutOther] ∧
     (handle_put envPutOther).crashed = false) :=
  ⟨rfl, rfl, rfl, by decide,
    handle_put_fail_cleanup envPutOther 1 rfl rfl rfl (Or.inl (by decide))⟩

/-- C7 (code bug): a GET of a directory responds 403 and releases the read
lock but never closes the opened descriptor — the `fstat`-failure and
directory branches return without `close(fd)`, leaking the descriptor. -/
theorem handle_get_dir_fd_leak :
    handle_get envGetDir =
      ⟨[Ev.rlock 1, Ev.resp 403, Ev.audit "GET" 403, Ev.runlock 1], false⟩ ∧
    Ev.closefd 3 ∉ (handle_get envGetDir).events ∧
    Ev.runlock 1 ∈ (handle_get envGetDir).events := by decide

/-- C8 (code bug): tearing down a registry holding one lock (id 7) invokes
`rwlock_delete` on that lock twice within `cleanup_file_locks` alone — once
on the local copy in the explicit loop, and once more inside `list_destroy`,
because the loop nulled only its local variable and not the node's `id`
field — not exactly once as the claim states. -/
theorem cleanup_double_delete :
    (cleanup_file_locks_events (some regOneLock)).count (TEv.rwdelete 7) = 2 ∧
    (cleanup_file_locks_events (some regOneLock)).count (TEv.rwdelete 7) ≠ 1 := by
  decide

/-- Counterexample for C9: `hash_destroy` on a null table is not a defensive
no-op — it dereferences the null pointer (a fault in the embedding), rather
than performing no operation. -/
theorem hash_destroy_null_faults :
    hash_destroy none = Except.error () ∧ hash_destroy none ≠ Except.ok [] :=
  ⟨rfl, fun hcontra => Except.noConfusion hcontra⟩

/-- C9 (amended): `hash_destroy` itself performs no null check and faults on
a null table; the defensive null check lives in its caller,
`cleanup_file_locks`, which performs no operation when the registry is
null. -/
theorem hash_destroy_null_caller_guard :
    cleanup_file_locks_events none = [] ∧ hash_destroy none = Except.error () :=
  ⟨rfl, rfl⟩

/-- C10 (code bug): startup accepts `-t 0`, `-t -3` and `-t abc` (the `atoi`
result is used with no positivity or parse check, so the server starts with
an invalid thread count), and `-t 4` with no port argument dereferences the
null `argv[optind]` instead of exiting with a usage message; the port checks
themselves behave as specified. -/
theorem main_arg_validation_gaps :
    mainStartup ["-t", "0", "8080"] = StartOutcome.started 0 8080 ∧
    mainStartup ["-t", "-3", "8080"] = StartOutcome.started (-3) 8080 ∧
    mainStartup ["-t", "abc", "8080"] = StartOutcome.started 0 8080 ∧
    mainStartup ["-t", "4"] = StartOutcome.crash ∧
    mainStartup [] = StartOutcome.usageExit ∧
    mainStartup ["0"] = StartOutcome.portExit ∧
    mainStartup ["65536"] = StartOutcome.portExit ∧
    mainStartup ["abc"] = StartOutcome.portExit ∧
    mainStartup ["8080"] = StartOutcome.started 4 8080 := by decide
